import Mathlib

/-!
Shallow embedding of the Ord GPT agent-memory integration layer
(`src/Ord/agent_memory.py`).  The broker delegates every durable operation
to an external memory store (the `agentmemory` library, an external
collaborator that is not part of the repository); the store's contract is
modelled here as explicit state passing over a `Store` value, following the
operation list the specification enumerates for it.  The broker functions
themselves are translated one-to-one from the Python source.
-/

namespace OrdMemory

/-- A metadata value: the Python code stores strings (user ids, speaker
roles, sources, preference values) and integers (epoch numbers) in record
metadata; timestamps are modelled as naturals drawn from a clock. -/
inductive MVal where
  | s (v : String)
  | n (v : Nat)
deriving DecidableEq, Repr

/-- Metadata is a finite mapping from string keys to values, kept as an
association list in insertion order. -/
abbrev Metadata := List (String × MVal)

/-- Look up a metadata key (first occurrence wins, as in a Python dict that
never holds duplicate keys). -/
def Metadata.get : Metadata → String → Option MVal
  | [], _ => none
  | (k₁, v₁) :: rest, k => if k₁ = k then some v₁ else Metadata.get rest k

/-- Set a key in an association list: replace the first occurrence in
place, or append when the key is absent. -/
def setAssoc {β : Type} : List (String × β) → String → β → List (String × β)
  | [], k, v => [(k, v)]
  | (k₁, v₁) :: rest, k, v =>
      if k₁ = k then (k, v) :: rest else (k₁, v₁) :: setAssoc rest k v

/-- Set a metadata key. -/
def Metadata.set (m : Metadata) (k : String) (v : MVal) : Metadata :=
  setAssoc m k v

/-- Merge the keys of `fresh` into `old`, leaving keys of `old` that do not
occur in `fresh` untouched. -/
def Metadata.merge (old fresh : Metadata) : Metadata :=
  fresh.foldl (fun acc kv => acc.set kv.1 kv.2) old

/-- A memory record of the external store: a fresh numeric id, a category
name, a primary text payload (`document`) and metadata. -/
structure MemRecord where
  id : Nat
  category : String
  document : String
  metadata : Metadata
deriving DecidableEq, Repr

/-- An append-only audit event. -/
structure Event where
  description : String
  metadata : Metadata
deriving DecidableEq, Repr

/-- Modelled from the spec: the external memory store's observable state —
memory records in insertion order (ids strictly increasing with `nextId`
fresh), the append-only event log, the process-wide epoch counter, and a
clock standing in for `datetime.now()`. -/
structure Store where
  memories : List MemRecord
  events : List Event
  epoch : Nat
  nextId : Nat
  clock : Nat
deriving DecidableEq, Repr

/-- Modelled from the spec: a timestamp source standing for
`datetime.now().isoformat()` — reads the clock and advances it. -/
def Store.now (s : Store) : Nat × Store :=
  (s.clock, { s with clock := s.clock + 1 })

/-- Modelled from the spec: `create_memory` — create a record in a category
with text and metadata, under a fresh id. -/
def create_memory (cat doc : String) (meta : Metadata) (s : Store) : Store :=
  { s with
    memories := s.memories ++ [⟨s.nextId, cat, doc, meta⟩],
    nextId := s.nextId + 1 }

/-- Category membership test for a record. -/
def inCategory (cat : String) (r : MemRecord) : Bool :=
  r.category == cat

/-- A record satisfies a metadata filter when every filter key is present
with the given value. -/
def matchesFilter (filt : Metadata) (r : MemRecord) : Bool :=
  filt.all fun kv => r.metadata.get kv.1 == some kv.2

/-- Modelled from the spec: `count_memories` — count records in a
category. -/
def count_memories (cat : String) (s : Store) : Nat :=
  (s.memories.filter (inCategory cat)).length

/-- Modelled from the spec: `get_memories` — list records in a category,
optionally metadata-filtered, with a result cap and a sort order by
recency; `desc = true` yields most-recent-first. -/
def get_memories (cat : String) (filt : Metadata) (n : Nat) (desc : Bool)
    (s : Store) : List MemRecord :=
  let l := s.memories.filter fun r => inCategory cat r && matchesFilter filt r
  (if desc then l.reverse else l).take n

/-- Modelled from the spec: the store's default result order for a plain
listing, by recency descending. -/
def defaultSortDesc : Bool := true

/-- Insert a record into a list kept sorted by descending similarity to the
query (stable: an equally similar record stays behind earlier ones). -/
def insertBySim (simFn : String → String → ℚ) (q : String) (r : MemRecord) :
    List MemRecord → List MemRecord
  | [] => [r]
  | x :: xs =>
      if simFn q x.document < simFn q r.document then r :: x :: xs
      else x :: insertBySim simFn q r xs

/-- Rank a list of records by descending similarity to the query. -/
def sortBySim (simFn : String → String → ℚ) (q : String)
    (l : List MemRecord) : List MemRecord :=
  l.foldr (insertBySim simFn q) []

/-- Modelled from the spec: `search_memory` — similarity-search records in
a category by a query string, optionally metadata-filtered, returning up to
`n` ranked matches; the similarity function itself is store-owned and is
threaded as the parameter `simFn`. -/
def search_memory (simFn : String → String → ℚ) (cat q : String)
    (filt : Metadata) (n : Nat) (s : Store) : List MemRecord :=
  (sortBySim simFn q
    (s.memories.filter fun r => inCategory cat r && matchesFilter filt r)).take n

/-- Modelled from the spec: the store's default result cap for a search
when the caller passes none. -/
def searchDefaultN : Nat := 5

/-- Modelled from the spec: `create_unique_memory` — create a record only
if no near-duplicate (by the similarity threshold) already exists in the
category; a near-duplicate collapses to the existing record. -/
def create_unique_memory (simFn : String → String → ℚ) (cat doc : String)
    (meta : Metadata) (threshold : ℚ) (s : Store) : Store :=
  if s.memories.any fun r => inCategory cat r && threshold ≤ simFn doc r.document
  then s
  else create_memory cat doc meta s

/-- Modelled from the spec: `update_memory` — update the metadata of the
single record with the given id in the given category, merging the supplied
keys and leaving all other fields untouched. -/
def update_memory (cat : String) (rid : Nat) (meta : Metadata) (s : Store) :
    Store :=
  { s with
    memories := s.memories.map fun r =>
      if inCategory cat r && r.id == rid then
        { r with metadata := r.metadata.merge meta }
      else r }

/-- Modelled from the spec: `reset_epoch` — reset the process-wide epoch
counter to zero. -/
def reset_epoch (s : Store) : Store := { s with epoch := 0 }

/-- Modelled from the spec: `increment_epoch`. -/
def increment_epoch (s : Store) : Store := { s with epoch := s.epoch + 1 }

/-- Modelled from the spec: `get_epoch`. -/
def get_epoch (s : Store) : Nat := s.epoch

/-- Modelled from the spec: `create_event` — append-only event log
write. -/
def create_event (descr : String) (meta : Metadata) (s : Store) : Store :=
  { s with events := s.events ++ [⟨descr, meta⟩] }

/-! Broker constants and functions, translated from
`src/Ord/agent_memory.py`. -/

def CATEGORY_CONVERSATIONS : String := "ord_conversations"
def CATEGORY_BITCOIN_FACTS : String := "bitcoin_facts"
def CATEGORY_ORDINALS_KNOWLEDGE : String := "ordinals_knowledge"
def CATEGORY_USER_PREFERENCES : String := "user_preferences"

/-- The fixed Bitcoin fact list seeded at first initialization. -/
def bitcoin_facts_seed : List String :=
  [ "Bitcoin was created by Satoshi Nakamoto in 2009.",
    "Bitcoin has a maximum supply of 21 million coins.",
    "Bitcoin uses a proof-of-work consensus mechanism.",
    "Bitcoin blocks are mined approximately every 10 minutes.",
    "The smallest unit of Bitcoin is called a satoshi, equal to 0.00000001 BTC." ]

/-- The fixed Ordinals knowledge list seeded at first initialization. -/
def ordinals_knowledge_seed : List String :=
  [ "Ordinals are a way to assign unique identifiers to individual satoshis in Bitcoin.",
    "Ordinals allow for the creation of digital artifacts on Bitcoin through inscriptions.",
    "Ordinal theory was developed by Casey Rodarmor.",
    "Ordinal inscriptions store data directly on the Bitcoin blockchain.",
    "Rare satoshis include those from the genesis block and block reward halving events." ]

/-- `seed_initial_knowledge`: store each fixed Bitcoin fact, then each
fixed Ordinals knowledge item, each tagged with a timestamp and
`source = "initial_seeding"`. -/
def seed_initial_knowledge (s : Store) : Store :=
  let s₁ := bitcoin_facts_seed.foldl
    (fun st fact =>
      create_memory CATEGORY_BITCOIN_FACTS fact
        [("timestamp", MVal.n (Store.now st).1),
         ("source", MVal.s "initial_seeding")]
        (Store.now st).2)
    s
  ordinals_knowledge_seed.foldl
    (fun st knowledge =>
      create_memory CATEGORY_ORDINALS_KNOWLEDGE knowledge
        [("timestamp", MVal.n (Store.now st).1),
         ("source", MVal.s "initial_seeding")]
        (Store.now st).2)
    s₁

/-- `initialize_memory`: reset the epoch counter, count the existing
records, and seed the fixed knowledge only when the Ordinals-knowledge
category is empty. -/
def initialize_memory (s : Store) : Store :=
  let s₁ := reset_epoch s
  if count_memories CATEGORY_ORDINALS_KNOWLEDGE s₁ = 0 then
    seed_initial_knowledge s₁
  else s₁

/-- `record_user_message`: store the message in the conversations category
with speaker `"user"`, the current timestamp and epoch, and emit a
corresponding event. -/
def record_user_message (user_id message : String) (s : Store) : Store :=
  let s₁ := create_memory CATEGORY_CONVERSATIONS message
    [("timestamp", MVal.n (Store.now s).1),
     ("user_id", MVal.s user_id),
     ("speaker", MVal.s "user"),
     ("epoch", MVal.n (get_epoch s))]
    (Store.now s).2
  create_event ("User " ++ user_id ++ " said: " ++ message)
    [("user_id", MVal.s user_id),
     ("message_type", MVal.s "user_message")]
    s₁

/-- `record_agent_response`: store the full response in the conversations
category with speaker `"ord_gpt"`, and emit an event whose description
truncates the response to its first 50 characters. -/
def record_agent_response (user_id message : String) (s : Store) : Store :=
  let s₁ := create_memory CATEGORY_CONVERSATIONS message
    [("timestamp", MVal.n (Store.now s).1),
     ("user_id", MVal.s user_id),
     ("speaker", MVal.s "ord_gpt"),
     ("epoch", MVal.n (get_epoch s))]
    (Store.now s).2
  create_event ("Ord GPT responded to " ++ user_id ++ ": "
      ++ message.take 50 ++ "...")
    [("user_id", MVal.s user_id),
     ("message_type", MVal.s "agent_response")]
    s₁

/-- The similarity threshold 0.85 the broker passes to the deduplicating
insert. -/
def dedupSimilarity : ℚ := 85 / 100

/-- `record_bitcoin_fact`: deduplicating insert of a fact into the
Bitcoin-facts category, tagged with timestamp, source and current epoch. -/
def record_bitcoin_fact (simFn : String → String → ℚ) (fact : String)
    (source : String) (s : Store) : Store :=
  create_unique_memory simFn CATEGORY_BITCOIN_FACTS fact
    [("timestamp", MVal.n (Store.now s).1),
     ("source", MVal.s source),
     ("epoch", MVal.n (get_epoch s))]
    dedupSimilarity
    (Store.now s).2

/-- `record_ordinals_knowledge`: deduplicating insert of a knowledge item
into the Ordinals-knowledge category, tagged with timestamp, source and
current epoch. -/
def record_ordinals_knowledge (simFn : String → String → ℚ)
    (knowledge : String) (source : String) (s : Store) : Store :=
  create_unique_memory simFn CATEGORY_ORDINALS_KNOWLEDGE knowledge
    [("timestamp", MVal.n (Store.now s).1),
     ("source", MVal.s source),
     ("epoch", MVal.n (get_epoch s))]
    dedupSimilarity
    (Store.now s).2

/-- `record_user_preference`: metadata-filtered similarity search for an
existing preference record of the user; update the first match's `value`
and `timestamp` metadata when one is found, otherwise create a new record
whose primary text is the preference type. -/
def record_user_preference (simFn : String → String → ℚ)
    (user_id preference_type preference_value : String) (s : Store) : Store :=
  match search_memory simFn CATEGORY_USER_PREFERENCES preference_type
      [("user_id", MVal.s user_id)] searchDefaultN s with
  | p :: _ =>
      update_memory CATEGORY_USER_PREFERENCES p.id
        [("value", MVal.s preference_value),
         ("timestamp", MVal.n (Store.now s).1)]
        (Store.now s).2
  | [] =>
      create_memory CATEGORY_USER_PREFERENCES preference_type
        [("user_id", MVal.s user_id),
         ("value", MVal.s preference_value),
         ("timestamp", MVal.n (Store.now s).1)]
        (Store.now s).2

/-- One formatted conversation turn: the speaker metadata value (defaulting
to `"unknown"` when absent) and the record's text. -/
structure ConvTurn where
  speaker : MVal
  text : String
deriving DecidableEq, Repr

/-- Format a conversation record into a turn. -/
def toTurn (r : MemRecord) : ConvTurn :=
  ⟨(r.metadata.get "speaker").getD (MVal.s "unknown"), r.document⟩

/-- `get_conversation_history`: fetch the most recent `limit` conversation
records of the user in descending order, then reverse into chronological
order and format each into a turn. -/
def get_conversation_history (user_id : String) (limit : Nat) (s : Store) :
    List ConvTurn :=
  let memories := get_memories CATEGORY_CONVERSATIONS
    [("user_id", MVal.s user_id)] limit true s
  memories.reverse.map toTurn

/-- `search_bitcoin_facts`. -/
def search_bitcoin_facts (simFn : String → String → ℚ) (query : String)
    (limit : Nat) (s : Store) : List MemRecord :=
  search_memory simFn CATEGORY_BITCOIN_FACTS query [] limit s

/-- `search_ordinals_knowledge`. -/
def search_ordinals_knowledge (simFn : String → String → ℚ) (query : String)
    (limit : Nat) (s : Store) : List MemRecord :=
  search_memory simFn CATEGORY_ORDINALS_KNOWLEDGE query [] limit s

/-- `get_user_preferences`: fetch up to 100 preference records of the user
and fold them into a mapping from preference type (the record text) to the
`value` metadata entry; later-iterated records overwrite earlier ones. -/
def get_user_preferences (user_id : String) (s : Store) :
    List (String × Option MVal) :=
  let memories := get_memories CATEGORY_USER_PREFERENCES
    [("user_id", MVal.s user_id)] 100 defaultSortDesc s
  memories.foldl
    (fun prefs m => setAssoc prefs m.document (m.metadata.get "value")) []

/-- The context bundle returned to the caller. -/
structure Context where
  conversation_history : List ConvTurn
  relevant_bitcoin_facts : List String
  relevant_ordinals_knowledge : List String
  user_preferences : List (String × Option MVal)
  current_epoch : Nat
deriving DecidableEq, Repr

/-- `generate_context`: increment the epoch, record the inbound user
message, then gather the last 5 turns, the top 3 Bitcoin facts and top 3
Ordinals knowledge items for the message, the user's preferences and the
current epoch into one bundle. -/
def generate_context (simFn : String → String → ℚ)
    (user_id current_message : String) (s : Store) : Context × Store :=
  let s₁ := increment_epoch s
  let s₂ := record_user_message user_id current_message s₁
  let conversation_history := get_conversation_history user_id 5 s₂
  let bitcoin_facts := search_bitcoin_facts simFn current_message 3 s₂
  let ordinals_knowledge := search_ordinals_knowledge simFn current_message 3 s₂
  let user_prefs := get_user_preferences user_id s₂
  (⟨conversation_history,
    bitcoin_facts.map (fun fact => fact.document),
    ordinals_knowledge.map (fun knowledge => knowledge.document),
    user_prefs,
    get_epoch s₂⟩, s₂)

/-- `process_message`: generate the context bundle for an inbound user
message. -/
def process_message (simFn : String → String → ℚ) (user_id message : String)
    (s : Store) : Context × Store :=
  generate_context simFn user_id message s

/-- Python truthiness of an optional list (`if new_facts:`): `None` and the
empty list are falsy. -/
def truthy : Option (List String) → Bool
  | none => false
  | some l => !l.isEmpty

/-- `record_response`: record the agent's response, then persist each newly
learned fact and knowledge item (with the default source
`"conversation"`). -/
def record_response (simFn : String → String → ℚ) (user_id response : String)
    (new_facts new_knowledge : Option (List String)) (s : Store) : Store :=
  let s₁ := record_agent_response user_id response s
  let s₂ :=
    if truthy new_facts then
      (new_facts.getD []).foldl
        (fun st fact => record_bitcoin_fact simFn fact "conversation" st) s₁
    else s₁
  if truthy new_knowledge then
    (new_knowledge.getD []).foldl
      (fun st knowledge =>
        record_ordinals_knowledge simFn knowledge "conversation" st) s₂
  else s₂

/-! Helper lemmas. -/

theorem epoch_create_memory (c d : String) (m : Metadata) (s : Store) :
    (create_memory c d m s).epoch = s.epoch := rfl

theorem epoch_create_event (d : String) (m : Metadata) (s : Store) :
    (create_event d m s).epoch = s.epoch := rfl

theorem epoch_record_user_message (u m : String) (s : Store) :
    (record_user_message u m s).epoch = s.epoch := rfl

/-- C1: for every user U and message M, `process_message(U, M)` leaves the
epoch counter at exactly one more than its value before the call. -/
theorem C1_process_message_increments_epoch (simFn : String → String → ℚ)
    (U M : String) (s : Store) :
    ((process_message simFn U M s).2).epoch = s.epoch + 1 := rfl

/-- C2: `process_message(U, M)` first increments the epoch, then records
the inbound message, and returns a bundle holding exactly the last 5
conversation turns for U (at most 5), the top 3 Bitcoin facts and top 3
Ordinals knowledge items found by similarity search keyed on M (at most 3
each), U's full preference mapping, and the current epoch value. -/
theorem C2_process_message_bundle (simFn : String → String → ℚ)
    (U M : String) (s : Store) :
    (process_message simFn U M s).2 = record_user_message U M (increment_epoch s) ∧
    (process_message simFn U M s).1.current_epoch = s.epoch + 1 ∧
    (process_message simFn U M s).1.conversation_history =
      get_conversation_history U 5 (record_user_message U M (increment_epoch s)) ∧
    (process_message simFn U M s).1.conversation_history.length ≤ 5 ∧
    (process_message simFn U M s).1.relevant_bitcoin_facts =
      (search_bitcoin_facts simFn M 3 (record_user_message U M (increment_epoch s))).map
        (fun fact => fact.document) ∧
    (process_message simFn U M s).1.relevant_bitcoin_facts.length ≤ 3 ∧
    (process_message simFn U M s).1.relevant_ordinals_knowledge =
      (search_ordinals_knowledge simFn M 3 (record_user_message U M (increment_epoch s))).map
        (fun knowledge => knowledge.document) ∧
    (process_message simFn U M s).1.relevant_ordinals_knowledge.length ≤ 3 ∧
    (process_message simFn U M s).1.user_preferences =
      get_user_preferences U (record_user_message U M (increment_epoch s)) := by
  refine ⟨rfl, rfl, rfl, ?_, rfl, ?_, rfl, ?_, rfl⟩
  · show (get_conversation_history U 5 (record_user_message U M (increment_epoch s))).length ≤ 5
    unfold get_conversation_history get_memories
    simp only [List.length_map, List.length_reverse]
    exact List.length_take_le 5 _
  · show ((search_bitcoin_facts simFn M 3 _).map _).length ≤ 3
    unfold search_bitcoin_facts search_memory
    simp only [List.length_map]
    exact List.length_take_le 3 _
  · show ((search_ordinals_knowledge simFn M 3 _).map _).length ≤ 3
    unfold search_ordinals_knowledge search_memory
    simp only [List.length_map]
    exact List.length_take_le 3 _

/-- C3: a conversation history fetch with limit L returns at most L
entries, and the returned list is the reverse of the store's
descending-by-recency result, i.e. chronological (oldest-first) order. -/
theorem C3_get_conversation_history_spec (U : String) (L : Nat) (s : Store) :
    (get_conversation_history U L s).length ≤ L ∧
    get_conversation_history U L s =
      ((get_memories CATEGORY_CONVERSATIONS [("user_id", MVal.s U)] L true s).map
        toTurn).reverse := by
  constructor
  · unfold get_conversation_history get_memories
    simp only [List.length_map, List.length_reverse]
    exact List.length_take_le L _
  · unfold get_conversation_history
    exact List.map_reverse toTurn _

theorem get_setAssoc_self (m : Metadata) (k : String) (v : MVal) :
    Metadata.get (Metadata.set m k v) k = some v := by
  induction m with
  | nil => simp [Metadata.set, setAssoc, Metadata.get]
  | cons kv rest ih =>
      obtain ⟨k₁, v₁⟩ := kv
      by_cases h : k₁ = k
      · simp [Metadata.set, setAssoc, h, Metadata.get]
      · simpa [Metadata.set, setAssoc, h, Metadata.get] using ih

theorem get_setAssoc_ne (m : Metadata) (k k₂ : String) (v : MVal)
    (h : k₂ ≠ k) :
    Metadata.get (Metadata.set m k v) k₂ = Metadata.get m k₂ := by
  induction m with
  | nil => simp [Metadata.set, setAssoc, Metadata.get, Ne.symm h]
  | cons kv rest ih =>
      obtain ⟨k₁, v₁⟩ := kv
      by_cases h₁ : k₁ = k
      · subst h₁
        simp [Metadata.set, setAssoc, Metadata.get, Ne.symm h]
      · by_cases h₂ : k₁ = k₂
        · simp [Metadata.set, setAssoc, h₁, Metadata.get, h₂, h]
        · simpa [Metadata.set, setAssoc, h₁, Metadata.get, h₂] using ih

theorem length_insertBySim (f : String → String → ℚ) (q : String)
    (r : MemRecord) (l : List MemRecord) :
    (insertBySim f q r l).length = l.length + 1 := by
  induction l with
  | nil => rfl
  | cons x xs ih =>
      unfold insertBySim
      split
      · rfl
      · simp [ih]

theorem length_sortBySim (f : String → String → ℚ) (q : String)
    (l : List MemRecord) :
    (sortBySim f q l).length = l.length := by
  induction l with
  | nil => rfl
  | cons x xs ih =>
      show (insertBySim f q x (sortBySim f q xs)).length = xs.length + 1
      rw [length_insertBySim, ih]

theorem search_memory_ne_nil (simFn : String → String → ℚ)
    (cat q : String) (filt : Metadata) (s : Store)
    (h : s.memories.filter
      (fun r => inCategory cat r && matchesFilter filt r) ≠ []) :
    search_memory simFn cat q filt searchDefaultN s ≠ [] := by
  unfold search_memory
  intro hc
  rcases List.take_eq_nil_iff.mp hc with h₅ | h₀
  · exact absurd h₅ (by simp [searchDefaultN])
  · have hl := length_sortBySim simFn q
      (s.memories.filter fun r => inCategory cat r && matchesFilter filt r)
    rw [h₀, List.length_nil] at hl
    exact h (List.length_eq_zero.mp hl.symm)

/-- C4: `record_user_preference(U, T, V)` with a first search match updates
only that record's `value` and `timestamp` metadata keys — its primary
text, its `user_id` metadata and every other record stay untouched — and
with no match it creates a new record whose primary text is T and whose
metadata carries U and V. -/
theorem C4_record_user_preference_frame (simFn : String → String → ℚ)
    (U T V : String) (s : Store) :
    (∀ p rest,
      search_memory simFn CATEGORY_USER_PREFERENCES T
        [("user_id", MVal.s U)] searchDefaultN s = p :: rest →
      (record_user_preference simFn U T V s).memories =
        s.memories.map (fun r =>
          if inCategory CATEGORY_USER_PREFERENCES r && r.id == p.id then
            { r with metadata := (Metadata.merge r.metadata
                [("value", MVal.s V), ("timestamp", MVal.n s.clock)]) }
          else r) ∧
      (record_user_preference simFn U T V s).events = s.events ∧
      (record_user_preference simFn U T V s).epoch = s.epoch) ∧
    (s.memories.filter (fun r => inCategory CATEGORY_USER_PREFERENCES r &&
        matchesFilter [("user_id", MVal.s U)] r) ≠ [] →
      search_memory simFn CATEGORY_USER_PREFERENCES T
        [("user_id", MVal.s U)] searchDefaultN s ≠ []) ∧
    (search_memory simFn CATEGORY_USER_PREFERENCES T
        [("user_id", MVal.s U)] searchDefaultN s = [] →
      record_user_preference simFn U T V s =
        create_memory CATEGORY_USER_PREFERENCES T
          [("user_id", MVal.s U), ("value", MVal.s V),
           ("timestamp", MVal.n s.clock)]
          { s with clock := s.clock + 1 }) ∧
    (∀ (m : Metadata) (k : String), k ≠ "value" → k ≠ "timestamp" →
      Metadata.get (Metadata.merge m
        [("value", MVal.s V), ("timestamp", MVal.n s.clock)]) k =
        Metadata.get m k) ∧
    (∀ m : Metadata,
      Metadata.get (Metadata.merge m
        [("value", MVal.s V), ("timestamp", MVal.n s.clock)]) "value" =
        some (MVal.s V)) := by
  refine ⟨?_, ?_, ?_, ?_, ?_⟩
  · intro p rest hsearch
    have hupd : record_user_preference simFn U T V s =
        update_memory CATEGORY_USER_PREFERENCES p.id
          [("value", MVal.s V), ("timestamp", MVal.n s.clock)]
          { s with clock := s.clock + 1 } := by
      unfold record_user_preference
      rw [hsearch]
      rfl
    rw [hupd]
    exact ⟨rfl, rfl, rfl⟩
  · exact search_memory_ne_nil simFn CATEGORY_USER_PREFERENCES T _ s
  · intro hsearch
    unfold record_user_preference
    rw [hsearch]
    rfl
  · intro m k hv ht
    show Metadata.get ((m.set "value" (MVal.s V)).set "timestamp"
      (MVal.n s.clock)) k = Metadata.get m k
    rw [get_setAssoc_ne _ _ _ _ ht, get_setAssoc_ne _ _ _ _ hv]
  · intro m
    show Metadata.get ((m.set "value" (MVal.s V)).set "timestamp"
      (MVal.n s.clock)) "value" = some (MVal.s V)
    rw [get_setAssoc_ne _ _ _ _ (by decide), get_setAssoc_self]

/-- A constant similarity function, instantiating the store-owned ranking
for concrete runs. -/
def simZero : String → String → ℚ := fun _ _ => 0

/-- A single existing preference record used in concrete runs. -/
def prefRecord : MemRecord :=
  ⟨0, "user_preferences", "topic",
   [("user_id", MVal.s "u1"), ("value", MVal.s "old"), ("timestamp", MVal.n 0)]⟩

/-- A store holding just `prefRecord`. -/
def prefStore : Store := ⟨[prefRecord], [], 0, 1, 7⟩

/-- Witness for C4: on a concrete store with one matching preference
record, the search finds it and the update rewrites exactly that record. -/
theorem C4_record_user_preference_frame_witness :
    search_memory simZero CATEGORY_USER_PREFERENCES "topic"
      [("user_id", MVal.s "u1")] searchDefaultN prefStore = prefRecord :: [] ∧
    (record_user_preference simZero "u1" "topic" "B" prefStore).memories =
      prefStore.memories.map (fun r =>
        if inCategory CATEGORY_USER_PREFERENCES r && r.id == prefRecord.id then
          { r with metadata := (Metadata.merge r.metadata
              [("value", MVal.s "B"), ("timestamp", MVal.n prefStore.clock)]) }
        else r) :=
  ⟨by decide,
   ((C4_record_user_preference_frame simZero "u1" "topic" "B" prefStore).1
     prefRecord [] (by decide)).1⟩

theorem map_id_of_mem {α : Type} (l : List α) (f : α → α)
    (h : ∀ x ∈ l, f x = x) : l.map f = l := by
  induction l with
  | nil => rfl
  | cons a t ih =>
      rw [List.map_cons, h a (List.mem_cons_self a t),
        ih (fun x hx => h x (List.mem_cons_of_mem a hx))]

/-- A store holding a single preference of a different type (`"color"`)
for user `"u1"`, and no `"topic"` preference. -/
def colorPrefStore : Store :=
  ⟨[⟨0, "user_preferences", "color",
     [("user_id", MVal.s "u1"), ("value", MVal.s "red"),
      ("timestamp", MVal.n 0)]⟩],
   [], 0, 1, 0⟩

/-- Counterexample to C5: starting from a store with no `"topic"`
preference for user `"u1"` (but one `"color"` preference), recording
`("topic", "A")` then `("topic", "B")` leaves zero `"topic"` preference
records — the unfiltered similarity search finds the `"color"` record and
both calls update it instead of creating a `"topic"` record. -/
theorem C5_counterexample :
    colorPrefStore.memories.filter (fun r =>
        inCategory CATEGORY_USER_PREFERENCES r &&
        matchesFilter [("user_id", MVal.s "u1")] r &&
        r.document == "topic") = [] ∧
    ((record_user_preference simZero "u1" "topic" "B"
        (record_user_preference simZero "u1" "topic" "A"
          colorPrefStore)).memories.filter (fun r =>
        inCategory CATEGORY_USER_PREFERENCES r &&
        matchesFilter [("user_id", MVal.s "u1")] r &&
        r.document == "topic")).length = 0 := by
  constructor
  · decide
  · decide

/-- C5 amended: starting from a state with no preference records at all
for user U (and all record ids below the store's fresh id), recording
`("topic", "A")` then `("topic", "B")` leaves exactly one preference
record for U; it is of type `"topic"` with value `"B"`. -/
theorem C5_record_user_preference_upsert (simFn : String → String → ℚ)
    (U : String) (s : Store)
    (hpref : s.memories.filter (fun r =>
      inCategory CATEGORY_USER_PREFERENCES r &&
      matchesFilter [("user_id", MVal.s U)] r) = [])
    (hwf : ∀ r ∈ s.memories, r.id < s.nextId) :
    (record_user_preference simFn U "topic" "B"
        (record_user_preference simFn U "topic" "A" s)).memories.filter
      (fun r => inCategory CATEGORY_USER_PREFERENCES r &&
        matchesFilter [("user_id", MVal.s U)] r) =
      [⟨s.nextId, CATEGORY_USER_PREFERENCES, "topic",
        [("user_id", MVal.s U), ("value", MVal.s "B"),
         ("timestamp", MVal.n (s.clock + 1))]⟩] := by
  have h₁ : search_memory simFn CATEGORY_USER_PREFERENCES "topic"
      [("user_id", MVal.s U)] searchDefaultN s = [] := by
    unfold search_memory
    rw [hpref]
    rfl
  have hs₁ : record_user_preference simFn U "topic" "A" s =
      create_memory CATEGORY_USER_PREFERENCES "topic"
        [("user_id", MVal.s U), ("value", MVal.s "A"),
         ("timestamp", MVal.n s.clock)]
        { s with clock := s.clock + 1 } := by
    unfold record_user_preference
    rw [h₁]
    rfl
  set r₀ : MemRecord :=
    ⟨s.nextId, CATEGORY_USER_PREFERENCES, "topic",
     [("user_id", MVal.s U), ("value", MVal.s "A"),
      ("timestamp", MVal.n s.clock)]⟩ with hr₀
  have hmem₁ : (record_user_preference simFn U "topic" "A" s).memories =
      s.memories ++ [r₀] := by
    rw [hs₁]
    rfl
  have hfilt₁ : (record_user_preference simFn U "topic" "A" s).memories.filter
      (fun r => inCategory CATEGORY_USER_PREFERENCES r &&
        matchesFilter [("user_id", MVal.s U)] r) = [r₀] := by
    rw [hmem₁, List.filter_append, hpref]
    simp [inCategory, matchesFilter, Metadata.get, hr₀,
      CATEGORY_USER_PREFERENCES]
  have h₂ : search_memory simFn CATEGORY_USER_PREFERENCES "topic"
      [("user_id", MVal.s U)] searchDefaultN
      (record_user_preference simFn U "topic" "A" s) = [r₀] := by
    unfold search_memory
    rw [hfilt₁]
    rfl
  have hs₂ : record_user_preference simFn U "topic" "B"
      (record_user_preference simFn U "topic" "A" s) =
      update_memory CATEGORY_USER_PREFERENCES r₀.id
        [("value", MVal.s "B"),
         ("timestamp", MVal.n (record_user_preference simFn U "topic" "A" s).clock)]
        { record_user_preference simFn U "topic" "A" s with
          clock := (record_user_preference simFn U "topic" "A" s).clock + 1 } := by
    conv_lhs => rw [record_user_preference]
    rw [h₂]
    rfl
  have hclock₁ : (record_user_preference simFn U "topic" "A" s).clock =
      s.clock + 1 := by
    rw [hs₁]
    rfl
  have hmupd : ∀ r ∈ s.memories,
      (if inCategory CATEGORY_USER_PREFERENCES r && r.id == r₀.id then
        { r with metadata := (Metadata.merge r.metadata
            [("value", MVal.s "B"), ("timestamp", MVal.n (s.clock + 1))]) }
      else r) = r := by
    intro r hr
    have hid : (r.id == r₀.id) = false := by
      have := hwf r hr
      simp only [hr₀, beq_eq_false_iff_ne]
      omega
    simp [hid]
  have hmem₂ : (record_user_preference simFn U "topic" "B"
      (record_user_preference simFn U "topic" "A" s)).memories =
      s.memories ++
        [⟨s.nextId, CATEGORY_USER_PREFERENCES, "topic",
          [("user_id", MVal.s U), ("value", MVal.s "B"),
           ("timestamp", MVal.n (s.clock + 1))]⟩] := by
    rw [hs₂, hclock₁]
    show ((record_user_preference simFn U "topic" "A" s).memories.map _) = _
    rw [hmem₁, List.map_append,
      map_id_of_mem _ _ hmupd]
    congr 1
    show [if inCategory CATEGORY_USER_PREFERENCES r₀ && r₀.id == r₀.id then
        { r₀ with metadata := (Metadata.merge r₀.metadata
            [("value", MVal.s "B"), ("timestamp", MVal.n (s.clock + 1))]) }
      else r₀] = _
    simp only [hr₀, inCategory, Metadata.merge, Metadata.set, setAssoc,
      List.foldl, beq_self_eq_true, Bool.and_self, if_true]
    rfl
  rw [hmem₂, List.filter_append, hpref, List.nil_append]
  simp [inCategory, matchesFilter, Metadata.get, CATEGORY_USER_PREFERENCES]

/-- The empty store. -/
def emptyStore : Store := ⟨[], [], 0, 0, 0⟩

/-- Witness for C5 amended: on the empty store the two calls leave exactly
one `"topic"` preference with value `"B"`. -/
theorem C5_record_user_preference_upsert_witness :
    ([] : List MemRecord).filter (fun r =>
      inCategory CATEGORY_USER_PREFERENCES r &&
      matchesFilter [("user_id", MVal.s "u1")] r) = [] ∧
    (record_user_preference simZero "u1" "topic" "B"
        (record_user_preference simZero "u1" "topic" "A"
          emptyStore)).memories.filter
      (fun r => inCategory CATEGORY_USER_PREFERENCES r &&
        matchesFilter [("user_id", MVal.s "u1")] r) =
      [⟨0, CATEGORY_USER_PREFERENCES, "topic",
        [("user_id", MVal.s "u1"), ("value", MVal.s "B"),
         ("timestamp", MVal.n 1)]⟩] :=
  ⟨rfl, C5_record_user_preference_upsert simZero "u1" emptyStore
    (by decide) (by decide)⟩

theorem count_create_memory (cat cat₂ d : String) (m : Metadata) (s : Store) :
    count_memories cat (create_memory cat₂ d m s) =
      count_memories cat s + (if cat₂ == cat then 1 else 0) := by
  unfold count_memories create_memory
  rw [List.filter_append, List.length_append]
  congr 1
  by_cases h : (cat₂ == cat) = true <;> simp [inCategory, h]

theorem count_reset_epoch (cat : String) (s : Store) :
    count_memories cat (reset_epoch s) = count_memories cat s := rfl

theorem count_foldl_seed (cat cat₂ : String) (l : List String) (s : Store) :
    count_memories cat (l.foldl (fun st d => create_memory cat₂ d
      [("timestamp", MVal.n (Store.now st).1),
       ("source", MVal.s "initial_seeding")]
      (Store.now st).2) s) =
    count_memories cat s + (if cat₂ == cat then l.length else 0) := by
  induction l generalizing s with
  | nil => simp
  | cons a t ih =>
      rw [List.foldl_cons, ih]
      have hstep : count_memories cat (create_memory cat₂ a
          [("timestamp", MVal.n (Store.now s).1),
           ("source", MVal.s "initial_seeding")]
          (Store.now s).2) =
          count_memories cat s + (if cat₂ == cat then 1 else 0) :=
        count_create_memory cat cat₂ a _ (Store.now s).2
      rw [hstep]
      by_cases h : (cat₂ == cat) = true <;> simp [h] <;> try omega

theorem count_ordinals_seed (s : Store) :
    count_memories CATEGORY_ORDINALS_KNOWLEDGE (seed_initial_knowledge s) =
      count_memories CATEGORY_ORDINALS_KNOWLEDGE s + 5 := by
  simp only [seed_initial_knowledge]
  rw [count_foldl_seed, count_foldl_seed]
  have h₁ : (CATEGORY_BITCOIN_FACTS == CATEGORY_ORDINALS_KNOWLEDGE) = false := by
    decide
  have h₂ : (CATEGORY_ORDINALS_KNOWLEDGE == CATEGORY_ORDINALS_KNOWLEDGE) = true := by
    decide
  simp [h₁, h₂, ordinals_knowledge_seed]

theorem count_facts_seed (s : Store) :
    count_memories CATEGORY_BITCOIN_FACTS (seed_initial_knowledge s) =
      count_memories CATEGORY_BITCOIN_FACTS s + 5 := by
  simp only [seed_initial_knowledge]
  rw [count_foldl_seed, count_foldl_seed]
  have h₁ : (CATEGORY_BITCOIN_FACTS == CATEGORY_BITCOIN_FACTS) = true := by
    decide
  have h₂ : (CATEGORY_ORDINALS_KNOWLEDGE == CATEGORY_BITCOIN_FACTS) = false := by
    decide
  simp [h₁, h₂, bitcoin_facts_seed]

theorem epoch_seed (s : Store) :
    (seed_initial_knowledge s).epoch = s.epoch := rfl

theorem reset_epoch_of_epoch_zero (s : Store) (h : s.epoch = 0) :
    reset_epoch s = s := by
  cases s
  simp_all [reset_epoch]

/-- C6: initialization seeds the fixed lists exactly when the
Ordinals-knowledge category count is zero; each seeded record carries a
timestamp and `source = "initial_seeding"`; seeding adds 5 records to each
of the two knowledge categories; and a second initialization run is a
no-op. -/
theorem C6_initialize_memory_seeding (s : Store) :
    (count_memories CATEGORY_ORDINALS_KNOWLEDGE s = 0 →
      initialize_memory s = seed_initial_knowledge (reset_epoch s) ∧
      count_memories CATEGORY_ORDINALS_KNOWLEDGE (initialize_memory s) = 5 ∧
      count_memories CATEGORY_BITCOIN_FACTS (initialize_memory s) =
        count_memories CATEGORY_BITCOIN_FACTS s + 5) ∧
    (count_memories CATEGORY_ORDINALS_KNOWLEDGE s ≠ 0 →
      initialize_memory s = reset_epoch s) ∧
    (∀ r ∈ (seed_initial_knowledge s).memories, r ∈ s.memories ∨
      (Metadata.get r.metadata "source" = some (MVal.s "initial_seeding") ∧
       ∃ t, Metadata.get r.metadata "timestamp" = some (MVal.n t))) ∧
    initialize_memory (initialize_memory s) = initialize_memory s := by
  have hseed : count_memories CATEGORY_ORDINALS_KNOWLEDGE s = 0 →
      initialize_memory s = seed_initial_knowledge (reset_epoch s) := by
    intro h
    simp only [initialize_memory]
    rw [count_reset_epoch, if_pos h]
  have hskip : count_memories CATEGORY_ORDINALS_KNOWLEDGE s ≠ 0 →
      initialize_memory s = reset_epoch s := by
    intro h
    simp only [initialize_memory]
    rw [count_reset_epoch, if_neg h]
  refine ⟨?_, hskip, ?_, ?_⟩
  · intro h
    refine ⟨hseed h, ?_, ?_⟩
    · rw [hseed h, count_ordinals_seed, count_reset_epoch, h]
    · rw [hseed h, count_facts_seed, count_reset_epoch]
  · intro r hr
    have hr' : r ∈ (List.foldl
        (fun st knowledge =>
          create_memory CATEGORY_ORDINALS_KNOWLEDGE knowledge
            [("timestamp", MVal.n (Store.now st).1),
             ("source", MVal.s "initial_seeding")]
            (Store.now st).2)
        (List.foldl
          (fun st fact =>
            create_memory CATEGORY_BITCOIN_FACTS fact
              [("timestamp", MVal.n (Store.now st).1),
               ("source", MVal.s "initial_seeding")]
              (Store.now st).2)
          s bitcoin_facts_seed)
        ordinals_knowledge_seed).memories := hr
    simp only [bitcoin_facts_seed, ordinals_knowledge_seed, List.foldl,
      create_memory, Store.now, List.append_assoc, List.mem_append,
      List.cons_append, List.nil_append, List.mem_cons,
      List.mem_singleton, List.not_mem_nil, or_false] at hr'
    rcases hr' with h | h
    · exact Or.inl h
    · rcases h with rfl | rfl | rfl | rfl | rfl | rfl | rfl | rfl | rfl | rfl <;>
        exact Or.inr ⟨rfl, ⟨_, rfl⟩⟩
  · by_cases h : count_memories CATEGORY_ORDINALS_KNOWLEDGE s = 0
    · rw [hseed h]
      have hcnt : count_memories CATEGORY_ORDINALS_KNOWLEDGE
          (seed_initial_knowledge (reset_epoch s)) ≠ 0 := by
        rw [count_ordinals_seed, count_reset_epoch, h]
        decide
      simp only [initialize_memory]
      rw [count_reset_epoch, if_neg hcnt]
      exact reset_epoch_of_epoch_zero _ (epoch_seed (reset_epoch s))
    · rw [hskip h]
      have hcnt : count_memories CATEGORY_ORDINALS_KNOWLEDGE
          (reset_epoch s) ≠ 0 := by
        rw [count_reset_epoch]
        exact h
      simp only [initialize_memory]
      rw [count_reset_epoch, if_neg hcnt]
      rfl

/-- Witness for C6: on the empty store the count is zero and
initialization seeds. -/
theorem C6_initialize_memory_seeding_witness :
    count_memories CATEGORY_ORDINALS_KNOWLEDGE emptyStore = 0 ∧
    initialize_memory emptyStore =
      seed_initial_knowledge (reset_epoch emptyStore) ∧
    count_memories CATEGORY_ORDINALS_KNOWLEDGE
      (initialize_memory emptyStore) = 5 :=
  ⟨by decide,
   ((C6_initialize_memory_seeding emptyStore).1 (by decide)).1,
   ((C6_initialize_memory_seeding emptyStore).1 (by decide)).2.1⟩

/-- C7: inserting a fact whose similarity to some existing Bitcoin-facts
record is at least 0.85 does not increase the Bitcoin-facts record
count. -/
theorem C7_record_bitcoin_fact_dedup (simFn : String → String → ℚ)
    (F src : String) (s : Store)
    (h : ∃ r ∈ s.memories, inCategory CATEGORY_BITCOIN_FACTS r = true ∧
      dedupSimilarity ≤ simFn F r.document) :
    count_memories CATEGORY_BITCOIN_FACTS
        (record_bitcoin_fact simFn F src s) =
      count_memories CATEGORY_BITCOIN_FACTS s := by
  have hany : ((Store.now s).2).memories.any (fun r =>
      inCategory CATEGORY_BITCOIN_FACTS r &&
        decide (dedupSimilarity ≤ simFn F r.document)) = true := by
    obtain ⟨r, hr, hcat, hsim⟩ := h
    exact List.any_eq_true.mpr ⟨r, hr, by simp [hcat, hsim]⟩
  unfold record_bitcoin_fact create_unique_memory
  rw [if_pos]
  · rfl
  · exact of_decide_eq_true (by simpa using hany)

/-- A constant similarity function rating everything a perfect match. -/
def simOne : String → String → ℚ := fun _ _ => 1

/-- One Bitcoin-facts record used in concrete runs. -/
def factRecord : MemRecord :=
  ⟨0, "bitcoin_facts", "Bitcoin has a maximum supply of 21 million coins.",
   [("timestamp", MVal.n 0), ("source", MVal.s "initial_seeding")]⟩

/-- A store holding just `factRecord`. -/
def factStore : Store := ⟨[factRecord], [], 0, 1, 3⟩

/-- Witness for C7: against a store holding a perfectly similar fact, the
insert leaves the Bitcoin-facts count at 1. -/
theorem C7_record_bitcoin_fact_dedup_witness :
    (factRecord ∈ factStore.memories ∧
      inCategory CATEGORY_BITCOIN_FACTS factRecord = true ∧
      dedupSimilarity ≤ simOne "Bitcoin supply is capped." factRecord.document) ∧
    count_memories CATEGORY_BITCOIN_FACTS
        (record_bitcoin_fact simOne "Bitcoin supply is capped."
          "conversation" factStore) =
      count_memories CATEGORY_BITCOIN_FACTS factStore :=
  ⟨⟨by decide, by decide, by norm_num [dedupSimilarity, simOne]⟩,
   C7_record_bitcoin_fact_dedup simOne "Bitcoin supply is capped."
     "conversation" factStore
     ⟨factRecord, by decide, by decide, by norm_num [dedupSimilarity, simOne]⟩⟩

/-- Counterexample to C8: the conversation record stored by
`record_agent_response` carries speaker `"ord_gpt"`, not `"agent"`. -/
theorem C8_counterexample :
    ((record_agent_response "u1" "hello" emptyStore).memories.map
      (fun r => Metadata.get r.metadata "speaker")) =
        [some (MVal.s "ord_gpt")] ∧
    MVal.s "ord_gpt" ≠ MVal.s "agent" := by
  constructor
  · decide
  · decide

/-- C8 amended: `record_agent_response(U, T)` stores one conversation
record with speaker `"ord_gpt"` containing the full text T, and emits one
event whose description embeds only the first 50 characters of T as a
preview (at most 50 characters of T appear there); the truncation affects
only the event, never the stored record. -/
theorem C8_record_agent_response_truncation (U T : String) (s : Store) :
    (record_agent_response U T s).memories = s.memories ++
      [⟨s.nextId, CATEGORY_CONVERSATIONS, T,
        [("timestamp", MVal.n s.clock),
         ("user_id", MVal.s U),
         ("speaker", MVal.s "ord_gpt"),
         ("epoch", MVal.n s.epoch)]⟩] ∧
    (record_agent_response U T s).events = s.events ++
      [⟨"Ord GPT responded to " ++ U ++ ": " ++ T.take 50 ++ "...",
        [("user_id", MVal.s U),
         ("message_type", MVal.s "agent_response")]⟩] ∧
    (T.take 50).length ≤ 50 := by
  refine ⟨rfl, rfl, ?_⟩
  rw [String.take_eq]
  exact List.length_take_le 50 T.1

/-- The broker's public operations. -/
inductive BrokerOp where
  | procMsg (user msg : String)
  | recResponse (user resp : String) (nf nk : Option (List String))
  | recPref (user ptype pval : String)
  | recFact (fact src : String)
  | recKnowledge (knowledge src : String)
  | init
deriving DecidableEq

/-- Apply a broker operation to the store. -/
def BrokerOp.apply (simFn : String → String → ℚ) : BrokerOp → Store → Store
  | .procMsg u m, s => (process_message simFn u m s).2
  | .recResponse u r nf nk, s => record_response simFn u r nf nk s
  | .recPref u t v, s => record_user_preference simFn u t v s
  | .recFact f src, s => record_bitcoin_fact simFn f src s
  | .recKnowledge k src, s => record_ordinals_knowledge simFn k src s
  | .init, s => initialize_memory s

theorem epoch_create_unique_memory (simFn : String → String → ℚ)
    (cat doc : String) (meta : Metadata) (th : ℚ) (s : Store) :
    (create_unique_memory simFn cat doc meta th s).epoch = s.epoch := by
  unfold create_unique_memory
  split <;> rfl

theorem epoch_record_bitcoin_fact (simFn : String → String → ℚ)
    (f src : String) (s : Store) :
    (record_bitcoin_fact simFn f src s).epoch = s.epoch := by
  unfold record_bitcoin_fact
  rw [epoch_create_unique_memory]
  rfl

theorem epoch_record_ordinals_knowledge (simFn : String → String → ℚ)
    (k src : String) (s : Store) :
    (record_ordinals_knowledge simFn k src s).epoch = s.epoch := by
  unfold record_ordinals_knowledge
  rw [epoch_create_unique_memory]
  rfl

theorem epoch_foldl {α : Type} (f : Store → α → Store)
    (h : ∀ st x, (f st x).epoch = st.epoch) :
    ∀ (l : List α) (s : Store), (l.foldl f s).epoch = s.epoch
  | [], _ => rfl
  | a :: t, s => by
      rw [List.foldl_cons, epoch_foldl f h t (f s a), h]

theorem epoch_record_agent_response (U T : String) (s : Store) :
    (record_agent_response U T s).epoch = s.epoch := rfl

theorem epoch_record_response (simFn : String → String → ℚ)
    (U T : String) (nf nk : Option (List String)) (s : Store) :
    (record_response simFn U T nf nk s).epoch = s.epoch := by
  unfold record_response
  split <;> split <;>
    simp [epoch_foldl _ (fun st x => epoch_record_ordinals_knowledge simFn x "conversation" st),
      epoch_foldl _ (fun st x => epoch_record_bitcoin_fact simFn x "conversation" st),
      epoch_record_agent_response]

theorem epoch_record_user_preference (simFn : String → String → ℚ)
    (U T V : String) (s : Store) :
    (record_user_preference simFn U T V s).epoch = s.epoch := by
  unfold record_user_preference
  split <;> rfl

theorem epoch_initialize_memory (s : Store) :
    (initialize_memory s).epoch = 0 := by
  simp only [initialize_memory]
  split <;> rfl

/-- A store whose epoch counter stands at 1. -/
def epochOneStore : Store := ⟨[], [], 1, 0, 0⟩

/-- Counterexample to C9: with the epoch counter at 1, the preference
record created by `record_user_preference` carries no epoch metadata at
all. -/
theorem C9_counterexample :
    epochOneStore.epoch = 1 ∧
    ((record_user_preference simZero "u1" "topic" "A"
        epochOneStore).memories.map
      (fun r => Metadata.get r.metadata "epoch")) = [none] := by
  constructor
  · rfl
  · decide

/-- C9 amended: records created by message, response, fact and knowledge
recording carry the current epoch in their metadata; records created by
preference recording and by seeding, and all events, carry no epoch entry;
the epoch counter never decreases under any broker operation other than
initialization, which resets it to 0. -/
theorem C9_epoch_stamping (simFn : String → String → ℚ) (s : Store) :
    (∀ U M : String, ∀ r ∈ (record_user_message U M s).memories,
      r ∈ s.memories ∨
        Metadata.get r.metadata "epoch" = some (MVal.n s.epoch)) ∧
    (∀ U T : String, ∀ r ∈ (record_agent_response U T s).memories,
      r ∈ s.memories ∨
        Metadata.get r.metadata "epoch" = some (MVal.n s.epoch)) ∧
    (∀ F src : String, ∀ r ∈ (record_bitcoin_fact simFn F src s).memories,
      r ∈ s.memories ∨
        Metadata.get r.metadata "epoch" = some (MVal.n s.epoch)) ∧
    (∀ K src : String, ∀ r ∈ (record_ordinals_knowledge simFn K src s).memories,
      r ∈ s.memories ∨
        Metadata.get r.metadata "epoch" = some (MVal.n s.epoch)) ∧
    (∀ U T V : String,
      search_memory simFn CATEGORY_USER_PREFERENCES T
        [("user_id", MVal.s U)] searchDefaultN s = [] →
      ∀ r ∈ (record_user_preference simFn U T V s).memories,
        r ∈ s.memories ∨ Metadata.get r.metadata "epoch" = none) ∧
    (∀ r ∈ (seed_initial_knowledge s).memories,
      r ∈ s.memories ∨ Metadata.get r.metadata "epoch" = none) ∧
    (∀ U M : String, ∀ e ∈ (record_user_message U M s).events,
      e ∈ s.events ∨ Metadata.get e.metadata "epoch" = none) ∧
    (∀ U T : String, ∀ e ∈ (record_agent_response U T s).events,
      e ∈ s.events ∨ Metadata.get e.metadata "epoch" = none) ∧
    (∀ op : BrokerOp, op ≠ BrokerOp.init →
      s.epoch ≤ (BrokerOp.apply simFn op s).epoch) ∧
    (BrokerOp.apply simFn BrokerOp.init s).epoch = 0 := by
  refine ⟨?_, ?_, ?_, ?_, ?_, ?_, ?_, ?_, ?_, epoch_initialize_memory s⟩
  · intro U M r hr
    rcases List.mem_append.mp hr with h | h
    · exact Or.inl h
    · rw [List.mem_singleton] at h
      subst h
      exact Or.inr rfl
  · intro U T r hr
    rcases List.mem_append.mp hr with h | h
    · exact Or.inl h
    · rw [List.mem_singleton] at h
      subst h
      exact Or.inr rfl
  · intro F src r hr
    unfold record_bitcoin_fact create_unique_memory at hr
    split at hr
    · exact Or.inl hr
    · rcases List.mem_append.mp hr with h | h
      · exact Or.inl h
      · rw [List.mem_singleton] at h
        subst h
        exact Or.inr rfl
  · intro K src r hr
    unfold record_ordinals_knowledge create_unique_memory at hr
    split at hr
    · exact Or.inl hr
    · rcases List.mem_append.mp hr with h | h
      · exact Or.inl h
      · rw [List.mem_singleton] at h
        subst h
        exact Or.inr rfl
  · intro U T V hsearch r hr
    have hcreate : record_user_preference simFn U T V s =
        create_memory CATEGORY_USER_PREFERENCES T
          [("user_id", MVal.s U), ("value", MVal.s V),
           ("timestamp", MVal.n s.clock)]
          { s with clock := s.clock + 1 } := by
      unfold record_user_preference
      rw [hsearch]
      rfl
    rw [hcreate] at hr
    rcases List.mem_append.mp hr with h | h
    · exact Or.inl h
    · rw [List.mem_singleton] at h
      subst h
      exact Or.inr rfl
  · intro r hr
    have hr' : r ∈ (List.foldl
        (fun st knowledge =>
          create_memory CATEGORY_ORDINALS_KNOWLEDGE knowledge
            [("timestamp", MVal.n (Store.now st).1),
             ("source", MVal.s "initial_seeding")]
            (Store.now st).2)
        (List.foldl
          (fun st fact =>
            create_memory CATEGORY_BITCOIN_FACTS fact
              [("timestamp", MVal.n (Store.now st).1),
               ("source", MVal.s "initial_seeding")]
              (Store.now st).2)
          s bitcoin_facts_seed)
        ordinals_knowledge_seed).memories := hr
    simp only [bitcoin_facts_seed, ordinals_knowledge_seed, List.foldl,
      create_memory, Store.now, List.append_assoc, List.mem_append,
      List.cons_append, List.nil_append, List.mem_cons,
      List.mem_singleton, List.not_mem_nil, or_false] at hr'
    rcases hr' with h | h
    · exact Or.inl h
    · rcases h with rfl | rfl | rfl | rfl | rfl | rfl | rfl | rfl | rfl | rfl <;>
        exact Or.inr rfl
  · intro U M e he
    rcases List.mem_append.mp he with h | h
    · exact Or.inl h
    · rw [List.mem_singleton] at h
      subst h
      exact Or.inr rfl
  · intro U T e he
    rcases List.mem_append.mp he with h | h
    · exact Or.inl h
    · rw [List.mem_singleton] at h
      subst h
      exact Or.inr rfl
  · intro op hop
    cases op with
    | procMsg u m => exact Nat.le_succ s.epoch
    | recResponse u r nf nk =>
        rw [show (BrokerOp.apply simFn (BrokerOp.recResponse u r nf nk) s) =
          record_response simFn u r nf nk s from rfl,
          epoch_record_response]
    | recPref u t v =>
        rw [show (BrokerOp.apply simFn (BrokerOp.recPref u t v) s) =
          record_user_preference simFn u t v s from rfl,
          epoch_record_user_preference]
    | recFact f src =>
        rw [show (BrokerOp.apply simFn (BrokerOp.recFact f src) s) =
          record_bitcoin_fact simFn f src s from rfl,
          epoch_record_bitcoin_fact]
    | recKnowledge k src =>
        rw [show (BrokerOp.apply simFn (BrokerOp.recKnowledge k src) s) =
          record_ordinals_knowledge simFn k src s from rfl,
          epoch_record_ordinals_knowledge]
    | init => exact absurd rfl hop

/-- Witness for C9 amended: the inner implications instantiated on a
concrete store — the preference created on the empty store carries no
epoch entry, and a non-initialization operation does not decrease the
counter. -/
theorem C9_epoch_stamping_witness :
    (search_memory simZero CATEGORY_USER_PREFERENCES "topic"
      [("user_id", MVal.s "u1")] searchDefaultN epochOneStore = []) ∧
    ((record_user_preference simZero "u1" "topic" "A"
        epochOneStore).memories = [] ∨
      Metadata.get (⟨0, CATEGORY_USER_PREFERENCES, "topic",
        [("user_id", MVal.s "u1"), ("value", MVal.s "A"),
         ("timestamp", MVal.n 0)]⟩ : MemRecord).metadata "epoch" = none) ∧
    epochOneStore.epoch ≤
      (BrokerOp.apply simZero (BrokerOp.procMsg "u1" "hi")
        epochOneStore).epoch :=
  ⟨by decide,
   Or.inr (Or.resolve_left
     (((C9_epoch_stamping simZero epochOneStore).2.2.2.2.1 "u1" "topic" "A"
        (by decide)
        ⟨0, CATEGORY_USER_PREFERENCES, "topic",
         [("user_id", MVal.s "u1"), ("value", MVal.s "A"),
          ("timestamp", MVal.n 0)]⟩ (by decide)))
     (by decide)),
   (C9_epoch_stamping simZero epochOneStore).2.2.2.2.2.2.2.2.1
     (BrokerOp.procMsg "u1" "hi") (by decide)⟩

theorem count_create_event (cat d : String) (m : Metadata) (s : Store) :
    count_memories cat (create_event d m s) = count_memories cat s := rfl

/-- C10: `record_response(U, T, new_facts, new_knowledge)` with both lists
absent or empty creates exactly one conversation record (the agent
response) and one event and touches neither knowledge category; in
general it is the composition that records the response first and then
folds the fact and knowledge lists through the deduplicating inserts with
default source `"conversation"`. -/
theorem C10_record_response_spec (simFn : String → String → ℚ)
    (U T : String) (nf nk : Option (List String)) (s : Store) :
    ((nf = none ∨ nf = some []) → (nk = none ∨ nk = some []) →
      record_response simFn U T nf nk s = record_agent_response U T s ∧
      count_memories CATEGORY_CONVERSATIONS
          (record_response simFn U T nf nk s) =
        count_memories CATEGORY_CONVERSATIONS s + 1 ∧
      (record_response simFn U T nf nk s).events.length =
        s.events.length + 1 ∧
      count_memories CATEGORY_BITCOIN_FACTS
          (record_response simFn U T nf nk s) =
        count_memories CATEGORY_BITCOIN_FACTS s ∧
      count_memories CATEGORY_ORDINALS_KNOWLEDGE
          (record_response simFn U T nf nk s) =
        count_memories CATEGORY_ORDINALS_KNOWLEDGE s) ∧
    record_response simFn U T nf nk s =
      (nk.getD []).foldl
        (fun st knowledge =>
          record_ordinals_knowledge simFn knowledge "conversation" st)
        ((nf.getD []).foldl
          (fun st fact => record_bitcoin_fact simFn fact "conversation" st)
          (record_agent_response U T s)) := by
  have hfold : record_response simFn U T nf nk s =
      (nk.getD []).foldl
        (fun st knowledge =>
          record_ordinals_knowledge simFn knowledge "conversation" st)
        ((nf.getD []).foldl
          (fun st fact => record_bitcoin_fact simFn fact "conversation" st)
          (record_agent_response U T s)) := by
    unfold record_response
    cases nf with
    | none =>
        cases nk with
        | none => rfl
        | some lk => cases lk <;> rfl
    | some lf =>
        cases lf with
        | nil =>
            cases nk with
            | none => rfl
            | some lk => cases lk <;> rfl
        | cons f ft =>
            cases nk with
            | none => rfl
            | some lk => cases lk <;> rfl
  refine ⟨?_, hfold⟩
  intro hnf hnk
  have hempty : record_response simFn U T nf nk s =
      record_agent_response U T s := by
    rw [hfold]
    rcases hnf with rfl | rfl <;> rcases hnk with rfl | rfl <;> rfl
  have hconv : count_memories CATEGORY_CONVERSATIONS
      (record_agent_response U T s) =
      count_memories CATEGORY_CONVERSATIONS s + 1 := by
    unfold record_agent_response
    rw [count_create_event, count_create_memory]
    simp
    rfl
  have hbtc : count_memories CATEGORY_BITCOIN_FACTS
      (record_agent_response U T s) =
      count_memories CATEGORY_BITCOIN_FACTS s := by
    unfold record_agent_response
    rw [count_create_event, count_create_memory]
    simp [CATEGORY_CONVERSATIONS, CATEGORY_BITCOIN_FACTS]
    rfl
  have hord : count_memories CATEGORY_ORDINALS_KNOWLEDGE
      (record_agent_response U T s) =
      count_memories CATEGORY_ORDINALS_KNOWLEDGE s := by
    unfold record_agent_response
    rw [count_create_event, count_create_memory]
    simp [CATEGORY_CONVERSATIONS, CATEGORY_ORDINALS_KNOWLEDGE]
    rfl
  have hev : (record_agent_response U T s).events.length =
      s.events.length + 1 := by
    unfold record_agent_response create_event
    simp [create_memory]
    rfl
  rw [hempty]
  exact ⟨rfl, hconv, hev, hbtc, hord⟩

/-- Witness for C10: on the empty store with both optional lists absent,
`record_response` equals `record_agent_response` alone, adds one
conversation record and one event, and leaves both knowledge counts at
zero. -/
theorem C10_record_response_spec_witness :
    ((none : Option (List String)) = none ∨
      (none : Option (List String)) = some []) ∧
    record_response simZero "u1" "hi there" none none emptyStore =
      record_agent_response "u1" "hi there" emptyStore ∧
    count_memories CATEGORY_CONVERSATIONS
        (record_response simZero "u1" "hi there" none none emptyStore) = 1 ∧
    count_memories CATEGORY_BITCOIN_FACTS
        (record_response simZero "u1" "hi there" none none emptyStore) = 0 :=
  have h := (C10_record_response_spec simZero "u1" "hi there" none none
    emptyStore).1 (Or.inl rfl) (Or.inl rfl)
  ⟨Or.inl rfl, h.1, by rw [h.2.1]; rfl, by rw [h.2.2.2.1]; rfl⟩

end OrdMemory
